import Mathlib

/-!
Verification of the rebalancing decision engine of the `longshort` repository
(`okx_momentum_strategy.py`): factor computation and caching (`get_factor`),
ranking/selection of long and short instruments, order sizing under exchange
precision constraints (`calculate_order_amount`), orphaned-position detection
and closure (`get_all_positions`, `close_orphaned_positions`), and order
creation from the selection state (`create_order`).

Numbers are modelled by `ℚ` (Python floats/Decimals), instruments by `String`
(trading-pair symbols), Python dicts by insertion-ordered association lists,
and fallible operations by `Option`.  Exceptions that the source catches and
turns into a logged skip are modelled as `none` results or as leaving the
state unchanged, exactly where the corresponding `try/except` sits.
-/

namespace LongShort

/-! ### Python-dict and per-key-update helpers -/

/-- Keys of an insertion-ordered association list (a Python `dict`). -/
def dictKeys {α : Type} (l : List (String × α)) : List String :=
  l.map Prod.fst

/-- Python `d[k] = v`: replace in place when the key is present, else append. -/
def dictInsert {α : Type} (l : List (String × α)) (k : String) (v : α) :
    List (String × α) :=
  if k ∈ dictKeys l then
    l.map (fun e => if e.1 = k then (k, v) else e)
  else l ++ [(k, v)]

/-- Python `for k in ks: f[k] = v` over a function-backed table. -/
def setAll {α : Type} (f : String → α) (ks : List String) (v : α) : String → α :=
  ks.foldl (fun g k => fun q => if q = k then v else g q) f

/-! ### Python numeric primitives used by the sizing code -/

/-- Python `abs` on a real number. -/
def pyAbs (x : ℚ) : ℚ := if x < 0 then -x else x

/-- Python `round(x)`: round half to even (banker's rounding), as an integer. -/
def pyRoundHalfEven (x : ℚ) : ℤ :=
  if x - (⌊x⌋ : ℚ) < 1/2 then ⌊x⌋
  else if 1/2 < x - (⌊x⌋ : ℚ) then ⌊x⌋ + 1
  else if ⌊x⌋ % 2 = 0 then ⌊x⌋ else ⌊x⌋ + 1

/-- Ten to a natural power, kept in `ℚ` through a `ℕ` computation. -/
def pow10 (n : ℕ) : ℚ := ((10 ^ n : ℕ) : ℚ)

/-- Python `round(x, n)` for `n ≥ 0` decimal places. -/
def pyRound (x : ℚ) (n : ℕ) : ℚ := ((pyRoundHalfEven (x * pow10 n) : ℤ) : ℚ) / pow10 n

/-- Loop computing `int(abs(math.log10 s))` for `0 < s < 1`: the number of
times `s` can be multiplied by `10` while staying `≤ 1`.  The fuel only bounds
the recursion; `s.den` steps always suffice. -/
def countDownFuel : ℕ → ℚ → ℕ
  | 0, _ => 0
  | fuel + 1, s => if s * 10 ≤ 1 then countDownFuel fuel (s * 10) + 1 else 0

/-- Loop computing `int(abs(math.log10 s))` for `1 ≤ s`. -/
def countUpFuel : ℕ → ℚ → ℕ
  | 0, _ => 0
  | fuel + 1, s => if 10 ≤ s then countUpFuel fuel (s / 10) + 1 else 0

/-- Python `int(abs(math.log10 s))` for `s > 0` (truncation toward zero of the
absolute base-10 logarithm), as computed on a fractional precision step. -/
def pyTruncLog10Abs (s : ℚ) : ℕ :=
  if 1 ≤ s then countUpFuel s.num.natAbs s else countDownFuel s.den s

/-! ### Order sizing: `calculate_order_amount` -/

/-- The runtime type of a ccxt precision entry: Python distinguishes a `float`
step (round to its implied decimal precision) from an `int` (integer-only
contracts) by `isinstance(amount_precision, float)`. -/
inductive PrecisionVal where
  | ofInt (n : ℤ)
  | ofFloat (q : ℚ)
deriving DecidableEq

/-- One entry of `self.market_precision`, as built by `setup_market_precision`
from the ccxt market metadata. -/
structure MarketPrecision where
  price_precision : PrecisionVal
  amount_precision : PrecisionVal
  min_amount : ℚ
  min_cost : ℚ

/-- Precision handling inside `calculate_order_amount`: the `float` branch
computes `precision = int(abs(math.log10(amount_precision)))` and rounds to
that many decimals (`math.log10` of a non-positive step raises, which the
surrounding `except` turns into `None`); the `int` branch is
`int(round(order_amount))`. -/
def applyPrecision (ap : PrecisionVal) (x : ℚ) : Option ℚ :=
  match ap with
  | .ofFloat s => if 0 < s then some (pyRound x (pyTruncLog10Abs s)) else none
  | .ofInt _ => some ((pyRoundHalfEven x : ℤ) : ℚ)

/-- `calculate_order_amount(trading_pair, target_value, current_price)`.
The `market_precision` lookup is passed as an `Option` (missing pair returns
`None`); `contract_size` is the ccxt `contractSize`.  A zero denominator
raises `ZeroDivisionError`, caught by the surrounding `except`, hence `none`.
A result below `min_amount` is rejected (`None`). -/
def calculate_order_amount (mp : Option MarketPrecision) (contract_size : ℚ)
    (target_value : ℚ) (current_price : ℚ) : Option ℚ :=
  match mp with
  | none => none
  | some pd =>
    if contract_size * current_price = 0 then none
    else
      let order_amount := pyAbs target_value / (contract_size * current_price)
      match applyPrecision pd.amount_precision order_amount with
      | none => none
      | some q => if q < pd.min_amount then none else some q

/-! ### Factor computation and selection: `get_factor` -/

/-- One OHLCV bar of a candle dataframe. -/
structure Candle where
  timestamp : ℚ
  o : ℚ
  high : ℚ
  low : ℚ
  close : ℚ
  volume : ℚ

/-- The configuration fields of `OKXConfig` that the selection logic reads
(`LONG_TOP_N` and `SHORT_BOTTOM_N` default to 2 via `getattr`). -/
structure OKXConfig where
  TRADING_PAIRS : List String
  LONG_TOP_N : ℕ
  SHORT_BOTTOM_N : ℕ
  TARGET_VALUE : ℚ

/-- The per-cycle factor/selection state of `OKXMomentumStrategy`:
the candle cache, the `self.rsi` score dict (insertion-ordered), and the
`self.status` / `self.target_value` tables. -/
structure StrategyState where
  candles : String → List Candle
  rsi : List (String × ℚ)
  status : String → ℤ
  target_value : String → ℚ

/-- The state at `__init__`: empty candle cache, empty score dict, all
statuses and target values zero. -/
def initialState : StrategyState :=
  { candles := fun _ => []
    rsi := []
    status := fun _ => 0
    target_value := fun _ => 0 }

/-- The candle cache entry for pair `p` after the refresh step of
`get_factor`'s loop: the fetched series replaces the cache only when it holds
at least 168 bars (`fetch p = none` covers both a fetch error and the hourly
refresh gate being closed); otherwise the old cache is kept. -/
def refreshedCandles (fetch : String → Option (List Candle)) (s : StrategyState)
    (p : String) : List Candle :=
  match fetch p with
  | some df => if 168 ≤ df.length then df else s.candles p
  | none => s.candles p

/-- The body of `get_factor`'s per-pair loop: refresh the candle cache, then,
when the cached series holds at least 168 bars, store the enhanced-momentum
score in `self.rsi` and zero `self.status` for the pair.  The scoring formula
itself is the parameter `scoreFn`
(`calculate_enhanced_momentum(df)['final_score']`); no selection property
depends on its value. -/
def updatePairFactor (scoreFn : List Candle → ℚ) (fetch : String → Option (List Candle))
    (s : StrategyState) (p : String) : StrategyState :=
  let cached := refreshedCandles fetch s p
  let s' : StrategyState :=
    { s with candles := fun q => if q = p then cached else s.candles q }
  if 168 ≤ cached.length then
    { s' with
      rsi := dictInsert s'.rsi p (scoreFn cached)
      status := fun q => if q = p then 0 else s'.status q }
  else s'

/-- The whole `for trading_pair in self.config.TRADING_PAIRS` loop of
`get_factor` (a per-pair exception leaves that pair's state untouched, which
is the `fetch p = none` case of `updatePairFactor`). -/
def getFactorLoop (scoreFn : List Candle → ℚ) (fetch : String → Option (List Candle))
    (pairs : List String) (s : StrategyState) : StrategyState :=
  pairs.foldl (updatePairFactor scoreFn fetch) s

/-- `sorted(self.rsi.keys(), key=lambda k: self.rsi[k])`: the score dict's
keys, stably sorted by ascending score. -/
def sortedScoreKeys (rsi : List (String × ℚ)) : List String :=
  (rsi.mergeSort (fun a b => a.2 ≤ b.2)).map Prod.fst

/-- Python's `lst[-n:]` tail slice: for `n = 0` it is the whole list. -/
def pythonTail {α : Type} (n : ℕ) (l : List α) : List α :=
  if n = 0 then l else l.drop (l.length - n)

/-- The selection tail of `get_factor`: when `self.rsi` is nonempty and holds
at least `long_n + short_n` scored pairs, reset status/target for every scored
pair, then mark the top `long_n` LONG (`status 1`, `+TARGET_VALUE`) and the
bottom `short_n` SHORT (`status -1`, `-TARGET_VALUE`).  Otherwise the state is
left untouched (only a warning is logged).  Returns the new state with the
long and short key lists of this cycle. -/
def selectTargets (cfg : OKXConfig) (s : StrategyState) :
    StrategyState × List String × List String :=
  if s.rsi ≠ [] then
    let sorted_keys := sortedScoreKeys s.rsi
    let long_n := cfg.LONG_TOP_N
    let short_n := cfg.SHORT_BOTTOM_N
    if long_n + short_n ≤ sorted_keys.length then
      let long_keys := pythonTail long_n sorted_keys
      let short_keys := sorted_keys.take short_n
      let status' := setAll (setAll (setAll s.status sorted_keys 0) long_keys 1) short_keys (-1)
      let target' := setAll (setAll (setAll s.target_value sorted_keys 0) long_keys
        cfg.TARGET_VALUE) short_keys (-cfg.TARGET_VALUE)
      ({ s with status := status', target_value := target' }, long_keys, short_keys)
    else (s, [], [])
  else (s, [], [])

/-- One full `get_factor` call: the per-pair factor loop followed by the
selection tail. -/
def get_factor (scoreFn : List Candle → ℚ) (cfg : OKXConfig)
    (fetch : String → Option (List Candle)) (s : StrategyState) :
    StrategyState × List String × List String :=
  selectTargets cfg (getFactorLoop scoreFn fetch cfg.TRADING_PAIRS s)

/-- The pairs selected by this cycle (status 1 or -1 after `get_factor`). -/
def cycleSelected (scoreFn : List Candle → ℚ) (cfg : OKXConfig)
    (fetch : String → Option (List Candle)) (s : StrategyState) : List String :=
  (get_factor scoreFn cfg fetch s).2.1 ++ (get_factor scoreFn cfg fetch s).2.2

/-- States reachable by iterating `get_factor` cycles from the constructor
state (the only code that writes `candles`, `rsi`, `status`, `target_value`). -/
inductive Reachable (scoreFn : List Candle → ℚ) (cfg : OKXConfig) : StrategyState → Prop
  | init : Reachable scoreFn cfg initialState
  | step (s : StrategyState) (fetch : String → Option (List Candle)) :
      Reachable scoreFn cfg s → Reachable scoreFn cfg (get_factor scoreFn cfg fetch s).1

/-- The cross-cycle invariant of the factor state: a nonzero status or target
marks a pair that has a score; any nonzero status/target implies the score
dict already reached the selection threshold (scores are never removed from
`self.rsi`); and every scored pair's cached series holds at least 168 bars
(the cache is only ever replaced by a series of at least 168 bars). -/
def StateInv (cfg : OKXConfig) (s : StrategyState) : Prop :=
  (∀ p, s.status p ≠ 0 → p ∈ dictKeys s.rsi) ∧
  (∀ p, s.target_value p ≠ 0 → p ∈ dictKeys s.rsi) ∧
  ((∃ p, s.status p ≠ 0 ∨ s.target_value p ≠ 0) →
    cfg.LONG_TOP_N + cfg.SHORT_BOTTOM_N ≤ (dictKeys s.rsi).length) ∧
  (∀ p ∈ dictKeys s.rsi, 168 ≤ (s.candles p).length)

/-! ### Order creation and orphan closure: `create_order`, `get_all_positions`,
`close_orphaned_positions` -/

/-- A market order actually submitted through `place_order`: opens come from
`create_order` (`reduceOnly=False`), closes from `create_order` or
`close_orphaned_positions` (`reduceOnly=True`, `posSide` of the leg closed). -/
inductive Action where
  | openLong (symbol : String) (amount : ℚ)
  | openShort (symbol : String) (amount : ℚ)
  | closeLong (symbol : String) (amount : ℚ)
  | closeShort (symbol : String) (amount : ℚ)
deriving DecidableEq

/-- The trading pair an action is for. -/
def Action.symbol : Action → String
  | .openLong p _ => p
  | .openShort p _ => p
  | .closeLong p _ => p
  | .closeShort p _ => p

/-- Whether the action opens a new position. -/
def Action.isOpen : Action → Bool
  | .openLong _ _ => true
  | .openShort _ _ => true
  | _ => false

/-- Whether the action closes an existing position. -/
def Action.isClose : Action → Bool
  | .closeLong _ _ => true
  | .closeShort _ _ => true
  | _ => false

/-- The per-pair tables that `get_balance` and `setup_market_precision` fill
and that `create_order` reads: `self.price`, `self.asset_value`,
`self.asset_amount` (dict `get` defaults of 0 included), the
`self.market_precision` lookup, and the ccxt `contractSize`. -/
structure ExecEnv where
  price : String → ℚ
  asset_value : String → ℚ
  asset_amount : String → ℚ
  market_precision : String → Option MarketPrecision
  contract_size : String → ℚ

/-- The body of `create_order`'s per-pair loop: skip on zero price, skip when
sizing returns `None`, then exactly one of open-long (status 1, no live
value), open-short (status -1, no live value), close-long (status 0, positive
live value) or close-short (status 0, negative live value); any other
combination places no order. -/
def createOrderPair (env : ExecEnv) (status : String → ℤ) (target_value : String → ℚ)
    (p : String) : List Action :=
  if env.price p = 0 then []
  else
    match calculate_order_amount (env.market_precision p) (env.contract_size p)
        (target_value p) (env.price p) with
    | none => []
    | some order_amount =>
      if status p = 1 ∧ env.asset_value p = 0 then [.openLong p order_amount]
      else if status p = -1 ∧ env.asset_value p = 0 then [.openShort p order_amount]
      else if status p = 0 ∧ 0 < env.asset_value p then [.closeLong p (pyAbs (env.asset_amount p))]
      else if status p = 0 ∧ env.asset_value p < 0 then [.closeShort p (pyAbs (env.asset_amount p))]
      else []

/-- `create_order`: the orders submitted over `self.config.TRADING_PAIRS`. -/
def create_order (cfg : OKXConfig) (env : ExecEnv) (status : String → ℤ)
    (target_value : String → ℚ) : List Action :=
  cfg.TRADING_PAIRS.flatMap (createOrderPair env status target_value)

/-- One raw entry of `exchange.fetch_positions(params={'instType': 'SWAP'})`,
with the fields `get_all_positions` reads (`posSide` already lowercased). -/
structure RawPosition where
  instId : String
  posSide : String
  pos : ℚ
  symbol : String

/-- One value of the `all_positions` dict built by `get_all_positions`. -/
structure PosInfo where
  symbol : String
  inst_id : String
  side : String
  contracts : ℚ
  value : ℚ
  price : ℚ
deriving DecidableEq

/-- One iteration of `get_all_positions`'s loop over the fetched positions:
keep a position with `contracts > 0` whose ticker fetch succeeds, keyed by
symbol; a failed ticker fetch (`ticker sym = none`) is caught and the
position is dropped from the snapshot; zero-contract entries are skipped. -/
def positionStep (ticker : String → Option ℚ) (acc : List (String × PosInfo))
    (q : RawPosition) : List (String × PosInfo) :=
  if (0 : ℚ) < RawPosition.pos q then
    match ticker q.symbol with
    | some pr =>
      dictInsert acc q.symbol
        { symbol := q.symbol, inst_id := q.instId, side := q.posSide,
          contracts := q.pos, value := q.pos * pr, price := pr }
    | none => acc
  else acc

/-- `get_all_positions`: scan every fetched position (not only configured
pairs), building the snapshot dict used for orphan detection. -/
def get_all_positions (ticker : String → Option ℚ) (positions : List RawPosition) :
    List (String × PosInfo) :=
  positions.foldl (positionStep ticker) []

/-- The strategy-selected pairs (`status == 1 or status == -1`) that
`close_orphaned_positions` protects from closure. -/
def selectedPairs (pairs : List String) (status : String → ℤ) : List String :=
  pairs.filter (fun p => status p = 1 ∨ status p = -1)

/-- The close order placed for one snapshot entry: selected symbols are kept;
a long orphan is sold reduce-only, a short orphan bought reduce-only; any
other side string places no order. -/
def closeOrphanAction (selected : List String) (e : String × PosInfo) : List Action :=
  if e.1 ∈ selected then []
  else if e.2.side = "long" then [.closeLong e.1 e.2.contracts]
  else if e.2.side = "short" then [.closeShort e.1 e.2.contracts]
  else []

/-- `close_orphaned_positions`: close every snapshot position whose symbol is
not selected by the current strategy state. -/
def close_orphaned_positions (ticker : String → Option ℚ) (positions : List RawPosition)
    (pairs : List String) (status : String → ℤ) : List Action :=
  (get_all_positions ticker positions).flatMap
    (closeOrphanAction (selectedPairs pairs status))

/-- The reconciliation actions of one cycle, in execution order:
`close_orphaned_positions` then `create_order` (as sequenced by
`run_strategy`). -/
def cycleExecActions (cfg : OKXConfig) (env : ExecEnv) (ticker : String → Option ℚ)
    (positions : List RawPosition) (status : String → ℤ)
    (target_value : String → ℚ) : List Action :=
  close_orphaned_positions ticker positions cfg.TRADING_PAIRS status ++
    create_order cfg env status target_value

/-! ### Concrete fixtures used to evaluate the model on explicit inputs -/

/-- A market-precision entry with integer-only contracts and minimum 1. -/
def pdInt : MarketPrecision := ⟨.ofInt 0, .ofInt 0, 1, 0⟩

/-- A market-precision entry whose ccxt metadata lacked limits, so
`setup_market_precision` stored the defaults `min_amount = 0`, `min_cost = 0`. -/
def pdZeroMin : MarketPrecision := ⟨.ofInt 0, .ofInt 0, 0, 0⟩

/-- The spec's example instrument: amount step 0.01, minimum 0.01. -/
def pdStep001 : MarketPrecision := ⟨.ofInt 0, .ofFloat (1/100), 1/100, 0⟩

/-- The spec's example instrument with `min_amount = 1`. -/
def pdStep001Min1 : MarketPrecision := ⟨.ofInt 0, .ofFloat (1/100), 1, 0⟩

/-- A one-pair configuration. -/
def cfgOne : OKXConfig := ⟨["A"], 2, 2, 200⟩

/-- A two-pair configuration. -/
def cfgTwo : OKXConfig := ⟨["A", "B"], 2, 2, 200⟩

/-- A selection state in which pair `A` is targeted LONG. -/
def statusLongA : String → ℤ := fun p => if p = "A" then 1 else 0

/-- Balances as `get_balance` computes them when the exchange holds a live
short of 1 contract of `A` at price 100 (`asset_value = -contracts * price`). -/
def envShortA : ExecEnv :=
  { price := fun _ => 100
    asset_value := fun _ => -100
    asset_amount := fun _ => -1
    market_precision := fun _ => some pdInt
    contract_size := fun _ => 1 }

/-- The exchange's raw position list: one live short of 1 contract of `A`. -/
def positionsShortA : List RawPosition := [⟨"A-USDT-SWAP", "short", 1, "A"⟩]

/-- A ticker feed quoting 100 for every symbol. -/
def tickerConst : String → Option ℚ := fun _ => some 100

/-- A target-value table of +200 for every pair. -/
def targetConst : String → ℚ := fun _ => 200

/-- A scoring function used where the score's value is irrelevant. -/
def scoreZero : List Candle → ℚ := fun _ => 0

/-- A candle fetch that fails (or is not due) for every pair. -/
def fetchNone : String → Option (List Candle) := fun _ => none

/-- The exchange's raw position list: a live short of 2 contracts of `B`,
an instrument outside `cfgOne`'s configured universe. -/
def positionsOrphanB : List RawPosition := [⟨"B-USDT-SWAP", "short", 2, "B"⟩]

/-- A ticker feed quoting 5 for every symbol. -/
def tickerFive : String → Option ℚ := fun _ => some 5

/-- The all-flat selection state. -/
def statusZero : String → ℤ := fun _ => 0

/-- A ticker feed that fails for every symbol. -/
def tickerNone : String → Option ℚ := fun _ => none

/-- A concrete four-entry score dict. -/
def rsiFour : List (String × ℚ) := [("A", 1), ("B", 0), ("C", 2), ("D", -1)]

/-- A strategy state holding four scored pairs. -/
def stateFour : StrategyState :=
  { candles := fun _ => []
    rsi := rsiFour
    status := fun _ => 0
    target_value := fun _ => 0 }

/-! ### Library lemmas about the dict and table helpers -/

theorem dictKeys_dictInsert {α : Type} (l : List (String × α)) (k : String) (v : α) :
    dictKeys (dictInsert l k v) = if k ∈ dictKeys l then dictKeys l else dictKeys l ++ [k] := by
  unfold dictInsert
  split
  · simp only [dictKeys, List.map_map]
    congr 1
    funext e
    by_cases h : e.1 = k <;> simp [h]
  · simp [dictKeys]

theorem mem_dictKeys_dictInsert {α : Type} (l : List (String × α)) (k a : String) (v : α) :
    a ∈ dictKeys (dictInsert l k v) ↔ a ∈ dictKeys l ∨ a = k := by
  rw [dictKeys_dictInsert]
  split
  · rename_i h
    constructor
    · exact fun ha => Or.inl ha
    · rintro (ha | rfl)
      · exact ha
      · exact h
  · simp

theorem dictKeys_sublist_dictInsert {α : Type} (l : List (String × α)) (k : String) (v : α) :
    (dictKeys l).Sublist (dictKeys (dictInsert l k v)) := by
  rw [dictKeys_dictInsert]
  split
  · exact List.Sublist.refl _
  · exact List.sublist_append_left _ _

theorem nodup_dictKeys_dictInsert {α : Type} (l : List (String × α)) (k : String) (v : α)
    (h : (dictKeys l).Nodup) : (dictKeys (dictInsert l k v)).Nodup := by
  rw [dictKeys_dictInsert]
  split
  · exact h
  · rename_i hk
    simp only [List.nodup_append, List.nodup_cons, List.nodup_nil, and_true, true_and]
    refine ⟨h, ?_, ?_⟩
    · exact List.not_mem_nil k
    · intro a ha hak
      rw [List.mem_singleton] at hak
      exact hk (hak ▸ ha)

theorem mem_of_mem_dictInsert {α : Type} {l : List (String × α)} {k : String} {v : α}
    {e : String × α} (he : e ∈ dictInsert l k v) : e ∈ l ∨ e = (k, v) := by
  unfold dictInsert at he
  split at he
  · obtain ⟨a, ha, hae⟩ := List.mem_map.mp he
    by_cases h : a.1 = k
    · simp only [h, if_pos] at hae
      exact Or.inr hae.symm
    · simp only [h, if_neg, if_false] at hae
      exact Or.inl (hae ▸ ha)
  · rcases List.mem_append.mp he with h | h
    · exact Or.inl h
    · exact Or.inr (List.mem_singleton.mp h)

theorem setAll_apply {α : Type} (f : String → α) (ks : List String) (v : α) (q : String) :
    setAll f ks v q = if q ∈ ks then v else f q := by
  induction ks generalizing f with
  | nil => simp [setAll]
  | cons k ks ih =>
    simp only [setAll, List.foldl_cons] at *
    rw [ih]
    by_cases hq : q ∈ ks
    · simp [hq, List.mem_cons]
    · by_cases hqk : q = k <;> simp [hq, hqk]

/-! ### Arithmetic lemmas about the Python rounding primitives -/

theorem pyAbs_nonneg (x : ℚ) : 0 ≤ pyAbs x := by
  unfold pyAbs
  split <;> linarith

theorem pow10_pos (n : ℕ) : 0 < pow10 n := by
  unfold pow10
  exact_mod_cast pow_pos (by norm_num : (0:ℕ) < 10) n

theorem pyRoundHalfEven_nonpos (x : ℚ) (hx : x ≤ 0) : pyRoundHalfEven x ≤ 0 := by
  rcases eq_or_lt_of_le hx with h | h
  · subst h
    norm_num [pyRoundHalfEven]
  · have hf : ⌊x⌋ < 0 := by
      rw [Int.floor_lt]
      exact_mod_cast h
    unfold pyRoundHalfEven
    split_ifs <;> omega

theorem pyRound_nonpos (x : ℚ) (n : ℕ) (hx : x ≤ 0) : pyRound x n ≤ 0 := by
  have h1 : pyRoundHalfEven (x * pow10 n) ≤ 0 :=
    pyRoundHalfEven_nonpos _ (mul_nonpos_iff.mpr (Or.inr ⟨hx, (pow10_pos n).le⟩))
  have h2 : ((pyRoundHalfEven (x * pow10 n) : ℤ) : ℚ) ≤ 0 := by exact_mod_cast h1
  unfold pyRound
  exact div_nonpos_iff.mpr (Or.inr ⟨h2, (pow10_pos n).le⟩)

/-! ### Claim C5 — sizing floor -/

/-- C5: `calculate_order_amount` never returns a quantity below the
instrument's `min_amount`; a computed-and-rounded quantity below the minimum
yields `none` (the order is skipped), never an undersized quantity. -/
theorem sizing_floor (pd : MarketPrecision) (cs tv pr q : ℚ)
    (h : calculate_order_amount (some pd) cs tv pr = some q) :
    pd.min_amount ≤ q := by
  simp only [calculate_order_amount] at h
  split at h
  · exact absurd h (by simp)
  · rename_i hcs
    cases hap : applyPrecision pd.amount_precision (pyAbs tv / (cs * pr)) with
    | none =>
      rw [hap] at h
      exact absurd h (by simp)
    | some q' =>
      rw [hap] at h
      have h' : (if q' < pd.min_amount then none else some q') = some q := h
      by_cases hlt : q' < pd.min_amount
      · rw [if_pos hlt] at h'
        exact absurd h' (by simp)
      · rw [if_neg hlt] at h'
        injection h' with hq
        subst hq
        exact le_of_not_lt hlt

/-- Evaluation helper: sizing 200 USDT at price 100 with contract size 1 and
integer-only precision yields 2 contracts. -/
theorem calc_pdInt_eval : calculate_order_amount (some pdInt) 1 200 100 = some 2 := by
  norm_num [calculate_order_amount, pdInt, applyPrecision, pyAbs, pyRoundHalfEven]

/-- Witness for C5 at a concrete input: the returned quantity 2 is at least
`pdInt.min_amount = 1`. -/
theorem sizing_floor_witness : pdInt.min_amount ≤ 2 :=
  sizing_floor pdInt 1 200 100 2 calc_pdInt_eval

/-! ### Claim C6 — behaviour on non-positive mark price -/

/-- C6 counterexample: the claim "for every instrument and target notional,
`mark_price ≤ 0` returns undefined" fails at the explicit input
`min_amount = 0`, `target_value = 0`, `mark_price = -1`: the code divides by
the negative price without raising, rounds the quotient to 0, the check
`0 < 0` fails, and the defined quantity 0 is returned instead of `None`. -/
theorem sizer_negative_price_counterexample :
    calculate_order_amount (some pdZeroMin) 1 0 (-1) = some 0 := by
  norm_num [calculate_order_amount, pdZeroMin, applyPrecision, pyAbs, pyRoundHalfEven]

/-- C6 amended: `calculate_order_amount` never raises on `mark_price ≤ 0`
(the `ZeroDivisionError` at price 0 is caught), and it returns `none`
whenever the instrument's minimum order size is positive and the contract
size is nonnegative; only the degenerate `min_amount = 0` metadata can let a
non-positive price produce a (zero) quantity. -/
theorem sizer_nonpositive_price_returns_none (pd : MarketPrecision) (cs tv pr : ℚ)
    (hcs : 0 ≤ cs) (hmin : 0 < pd.min_amount) (hpr : pr ≤ 0) :
    calculate_order_amount (some pd) cs tv pr = none := by
  simp only [calculate_order_amount]
  split
  · rfl
  · rename_i hz
    have hneg : cs * pr < 0 :=
      lt_of_le_of_ne (mul_nonpos_iff.mpr (Or.inl ⟨hcs, hpr⟩)) hz
    have hraw : pyAbs tv / (cs * pr) ≤ 0 :=
      div_nonpos_iff.mpr (Or.inl ⟨pyAbs_nonneg tv, le_of_lt hneg⟩)
    cases hap : pd.amount_precision with
    | ofFloat s =>
      simp only [applyPrecision]
      by_cases hs : 0 < s
      · rw [if_pos hs]
        have hlt : pyRound (pyAbs tv / (cs * pr)) (pyTruncLog10Abs s) < pd.min_amount :=
          lt_of_le_of_lt (pyRound_nonpos _ _ hraw) hmin
        simp [hlt]
      · rw [if_neg hs]
    | ofInt n =>
      simp only [applyPrecision]
      have h2 : ((pyRoundHalfEven (pyAbs tv / (cs * pr)) : ℤ) : ℚ) < pd.min_amount := by
        have h1 := pyRoundHalfEven_nonpos _ hraw
        have hc : ((pyRoundHalfEven (pyAbs tv / (cs * pr)) : ℤ) : ℚ) ≤ 0 := by exact_mod_cast h1
        exact lt_of_le_of_lt hc hmin
      simp [h2]

/-- Witness for the amended C6 at a concrete input: sizing with mark price
`-1` on an instrument with minimum 1 is skipped. -/
theorem sizer_nonpositive_price_returns_none_witness :
    calculate_order_amount (some pdInt) 1 200 (-1) = none :=
  sizer_nonpositive_price_returns_none pdInt 1 200 (-1) (by norm_num)
    (by norm_num [pdInt]) (by norm_num)

/-! ### Claim C7 — the sizing formula and rounding precision -/

theorem countDownFuel_one (fuel : ℕ) : countDownFuel fuel 1 = 0 := by
  cases fuel with
  | zero => rfl
  | succ f =>
    unfold countDownFuel
    norm_num

theorem countDownFuel_pow (d : ℕ) :
    ∀ fuel, d < fuel → countDownFuel fuel ((1:ℚ)/10^(d+1)) = d + 1 := by
  induction d with
  | zero =>
    intro fuel hf
    obtain ⟨f, rfl⟩ : ∃ f, fuel = f + 1 := ⟨fuel - 1, by omega⟩
    have h1 : ((1:ℚ)/10^(0+1)) * 10 = 1 := by norm_num
    unfold countDownFuel
    rw [h1, if_pos (by norm_num : (1:ℚ) ≤ 1), countDownFuel_one]
  | succ d ih =>
    intro fuel hf
    obtain ⟨f, rfl⟩ : ∃ f, fuel = f + 1 := ⟨fuel - 1, by omega⟩
    have h1 : ((1:ℚ)/10^(d+1+1)) * 10 = (1:ℚ)/10^(d+1) := by
      have hne : ((10:ℚ)^(d+1)) ≠ 0 := by positivity
      field_simp
      ring
    have h10 : (1:ℚ) ≤ 10^(d+1) := by
      calc (1:ℚ) = 1^(d+1) := (one_pow _).symm
      _ ≤ 10^(d+1) := pow_le_pow_left₀ (by norm_num) (by norm_num) _
    have h2 : (1:ℚ)/10^(d+1) ≤ 1 := by
      rw [div_le_one (by positivity)]
      exact h10
    unfold countDownFuel
    rw [h1, if_pos h2, ih f (by omega)]

theorem den_one_div_pow10 (d : ℕ) : ((1:ℚ)/10^(d+1)).den = 10^(d+1) := by
  rw [one_div,
    show ((10:ℚ)^(d+1)) = ((10^(d+1) : ℕ) : ℚ) by push_cast; ring,
    Rat.inv_natCast_den, if_neg (pow_pos (by norm_num : (0:ℕ) < 10) (d+1)).ne']

theorem pyTruncLog10Abs_pow (d : ℕ) : pyTruncLog10Abs ((1:ℚ)/10^(d+1)) = d + 1 := by
  have hlt : (1:ℚ)/10^(d+1) < 1 := by
    rw [div_lt_one (by positivity)]
    calc (1:ℚ) < 10 := by norm_num
    _ = 10^1 := (pow_one _).symm
    _ ≤ 10^(d+1) := pow_le_pow_right₀ (by norm_num : (1:ℚ) ≤ 10) (by omega)
  unfold pyTruncLog10Abs
  rw [if_neg (not_le.mpr hlt), den_one_div_pow10]
  exact countDownFuel_pow d _
    (lt_of_lt_of_le (Nat.lt_pow_self (by norm_num) d)
      (Nat.pow_le_pow_right (by norm_num) (by omega)))

/-- C7: order sizing computes the raw quantity as
`|target_value| / (contract_size * price)` and rounds it to the instrument's
amount step — a fractional step `1/10^(d+1)` rounds (half-even) to `d+1`
decimal places, an integer step rounds to the nearest integer; on the spec's
example (`target 200`, `price 40000`, `contract multiplier 0.01`,
`step 0.01`) the quantity is `0.5`, and with `min_amount = 1` the sizing
returns `none`. -/
theorem order_sizing_formula :
    calculate_order_amount (some pdStep001) (1/100) 200 40000 = some (1/2) ∧
    calculate_order_amount (some pdStep001Min1) (1/100) 200 40000 = none ∧
    (∀ (pd : MarketPrecision) (cs tv pr : ℚ) (d : ℕ) (q : ℚ),
      pd.amount_precision = PrecisionVal.ofFloat ((1:ℚ)/10^(d+1)) →
      calculate_order_amount (some pd) cs tv pr = some q →
      q = pyRound (pyAbs tv / (cs * pr)) (d+1)) ∧
    (∀ (pd : MarketPrecision) (cs tv pr : ℚ) (n : ℤ) (q : ℚ),
      pd.amount_precision = PrecisionVal.ofInt n →
      calculate_order_amount (some pd) cs tv pr = some q →
      q = ((pyRoundHalfEven (pyAbs tv / (cs * pr)) : ℤ) : ℚ)) := by
  have hp : pyTruncLog10Abs ((1:ℚ)/100) = 2 := by
    have h := pyTruncLog10Abs_pow 1
    norm_num at h
    exact h
  refine ⟨?_, ?_, ?_, ?_⟩
  · norm_num [calculate_order_amount, pdStep001, applyPrecision, pyAbs, hp, pyRound, pow10,
      pyRoundHalfEven]
  · norm_num [calculate_order_amount, pdStep001Min1, applyPrecision, pyAbs, hp, pyRound, pow10,
      pyRoundHalfEven]
  · intro pd cs tv pr d q hap h
    simp only [calculate_order_amount] at h
    split at h
    · exact absurd h (by simp)
    · rw [hap] at h
      simp only [applyPrecision] at h
      rw [if_pos (by positivity)] at h
      rw [pyTruncLog10Abs_pow] at h
      have h' : (if pyRound (pyAbs tv / (cs * pr)) (d+1) < pd.min_amount then none
          else some (pyRound (pyAbs tv / (cs * pr)) (d+1))) = some q := h
      by_cases hlt : pyRound (pyAbs tv / (cs * pr)) (d+1) < pd.min_amount
      · rw [if_pos hlt] at h'
        exact absurd h' (by simp)
      · rw [if_neg hlt] at h'
        injection h' with hq
        exact hq.symm
  · intro pd cs tv pr n q hap h
    simp only [calculate_order_amount] at h
    split at h
    · exact absurd h (by simp)
    · rw [hap] at h
      simp only [applyPrecision] at h
      have h' : (if ((pyRoundHalfEven (pyAbs tv / (cs * pr)) : ℤ) : ℚ) < pd.min_amount then none
          else some ((pyRoundHalfEven (pyAbs tv / (cs * pr)) : ℤ) : ℚ)) = some q := h
      by_cases hlt : ((pyRoundHalfEven (pyAbs tv / (cs * pr)) : ℤ) : ℚ) < pd.min_amount
      · rw [if_pos hlt] at h'
        exact absurd h' (by simp)
      · rw [if_neg hlt] at h'
        injection h' with hq
        exact hq.symm

/-- Witness for C7's universally quantified rounding clauses, discharged at
concrete inputs via the example conjuncts. -/
theorem order_sizing_formula_witness :
    (1:ℚ)/2 = pyRound (pyAbs 200 / ((1/100) * 40000)) (1+1) ∧
    (2:ℚ) = ((pyRoundHalfEven (pyAbs 200 / (1 * 100)) : ℤ) : ℚ) := by
  constructor
  · exact order_sizing_formula.2.2.1 pdStep001 (1/100) 200 40000 1 (1/2)
      (by norm_num [pdStep001]) order_sizing_formula.1
  · exact order_sizing_formula.2.2.2 pdInt 1 200 100 0 2 rfl calc_pdInt_eval

/-! ### Claim C9 — disjointness and size of the selected sets -/

theorem sortedScoreKeys_perm (rsi : List (String × ℚ)) :
    (sortedScoreKeys rsi).Perm (dictKeys rsi) := by
  unfold sortedScoreKeys dictKeys
  exact (List.mergeSort_perm rsi _).map Prod.fst

/-- C9: whenever the score dict holds at least `long_n + short_n` entries
(with `long_n ≥ 1`, as every in-repo configuration has), the LONG and SHORT
key lists produced by the selection step are disjoint and together contain
exactly `long_n + short_n` distinct instruments. -/
theorem selection_disjoint (cfg : OKXConfig) (s : StrategyState)
    (hnd : (dictKeys s.rsi).Nodup)
    (hlen : cfg.LONG_TOP_N + cfg.SHORT_BOTTOM_N ≤ (dictKeys s.rsi).length)
    (hpos : 1 ≤ cfg.LONG_TOP_N) :
    ((selectTargets cfg s).2.1).Disjoint ((selectTargets cfg s).2.2) ∧
    ((selectTargets cfg s).2.1 ++ (selectTargets cfg s).2.2).Nodup ∧
    ((selectTargets cfg s).2.1 ++ (selectTargets cfg s).2.2).length =
      cfg.LONG_TOP_N + cfg.SHORT_BOTTOM_N := by
  have hperm := sortedScoreKeys_perm s.rsi
  have hlen' : cfg.LONG_TOP_N + cfg.SHORT_BOTTOM_N ≤ (sortedScoreKeys s.rsi).length := by
    rw [hperm.length_eq]
    exact hlen
  have hnd' : (sortedScoreKeys s.rsi).Nodup := (hperm.nodup_iff).mpr hnd
  have hne : s.rsi ≠ [] := by
    intro h
    rw [h] at hlen
    simp only [dictKeys, List.map_nil, List.length_nil] at hlen
    omega
  have h21 : (selectTargets cfg s).2.1 =
      (sortedScoreKeys s.rsi).drop ((sortedScoreKeys s.rsi).length - cfg.LONG_TOP_N) := by
    simp only [selectTargets]
    rw [if_pos hne, if_pos hlen']
    unfold pythonTail
    rw [if_neg (by omega : ¬cfg.LONG_TOP_N = 0)]
  have h22 : (selectTargets cfg s).2.2 = (sortedScoreKeys s.rsi).take cfg.SHORT_BOTTOM_N := by
    simp only [selectTargets]
    rw [if_pos hne, if_pos hlen']
  have hdisj0 : ((sortedScoreKeys s.rsi).take cfg.SHORT_BOTTOM_N).Disjoint
      ((sortedScoreKeys s.rsi).drop ((sortedScoreKeys s.rsi).length - cfg.LONG_TOP_N)) :=
    List.disjoint_take_drop hnd' (by omega)
  refine ⟨?_, ?_, ?_⟩
  · rw [h21, h22]
    exact fun a ha hb => hdisj0 hb ha
  · rw [h21, h22, List.nodup_append]
    exact ⟨(List.drop_sublist _ _).nodup hnd', (List.take_sublist _ _).nodup hnd',
      fun a ha hb => hdisj0 hb ha⟩
  · rw [List.length_append, h21, h22, List.length_drop, List.length_take,
      min_eq_left (by omega : cfg.SHORT_BOTTOM_N ≤ (sortedScoreKeys s.rsi).length)]
    omega

/-- Witness for C9 at a concrete four-pair score dict with `long_n = short_n = 2`. -/
theorem selection_disjoint_witness :
    ((selectTargets cfgTwo stateFour).2.1).Disjoint ((selectTargets cfgTwo stateFour).2.2) ∧
    ((selectTargets cfgTwo stateFour).2.1 ++ (selectTargets cfgTwo stateFour).2.2).Nodup ∧
    ((selectTargets cfgTwo stateFour).2.1 ++ (selectTargets cfgTwo stateFour).2.2).length =
      cfgTwo.LONG_TOP_N + cfgTwo.SHORT_BOTTOM_N :=
  selection_disjoint cfgTwo stateFour (by decide) (by decide) (by decide)

/-! ### The cross-cycle invariant of the factor state -/

theorem refreshedCandles_ge (fetch : String → Option (List Candle)) (s : StrategyState)
    (p : String) (h : 168 ≤ (s.candles p).length) :
    168 ≤ (refreshedCandles fetch s p).length := by
  unfold refreshedCandles
  cases fetch p with
  | none => exact h
  | some df =>
    show 168 ≤ (if 168 ≤ df.length then df else s.candles p).length
    split
    · assumption
    · exact h

theorem updatePairFactor_pos (scoreFn : List Candle → ℚ)
    (fetch : String → Option (List Candle)) (s : StrategyState) (p : String)
    (h : 168 ≤ (refreshedCandles fetch s p).length) :
    updatePairFactor scoreFn fetch s p =
      { candles := fun q => if q = p then refreshedCandles fetch s p else s.candles q
        rsi := dictInsert s.rsi p (scoreFn (refreshedCandles fetch s p))
        status := fun q => if q = p then 0 else s.status q
        target_value := s.target_value } := by
  simp only [updatePairFactor, if_pos h]

theorem updatePairFactor_neg (scoreFn : List Candle → ℚ)
    (fetch : String → Option (List Candle)) (s : StrategyState) (p : String)
    (h : ¬ 168 ≤ (refreshedCandles fetch s p).length) :
    updatePairFactor scoreFn fetch s p =
      { candles := fun q => if q = p then refreshedCandles fetch s p else s.candles q
        rsi := s.rsi
        status := s.status
        target_value := s.target_value } := by
  simp only [updatePairFactor, if_neg h]

theorem stateInv_update (cfg : OKXConfig) (scoreFn : List Candle → ℚ)
    (fetch : String → Option (List Candle)) (s : StrategyState) (p : String)
    (h : StateInv cfg s) : StateInv cfg (updatePairFactor scoreFn fetch s p) := by
  obtain ⟨h1, h2, h3, h4⟩ := h
  by_cases hc : 168 ≤ (refreshedCandles fetch s p).length
  · rw [updatePairFactor_pos scoreFn fetch s p hc]
    refine ⟨?_, ?_, ?_, ?_⟩
    · intro q hq
      dsimp at hq ⊢
      by_cases hqp : q = p
      · rw [if_pos hqp] at hq
        exact absurd rfl hq
      · rw [if_neg hqp] at hq
        exact (dictKeys_sublist_dictInsert _ _ _).subset (h1 q hq)
    · intro q hq
      exact (dictKeys_sublist_dictInsert _ _ _).subset (h2 q hq)
    · rintro ⟨q, hq⟩
      dsimp at hq
      have hbefore : s.status q ≠ 0 ∨ s.target_value q ≠ 0 := by
        rcases hq with hq | hq
        · by_cases hqp : q = p
          · rw [if_pos hqp] at hq
            exact absurd rfl hq
          · rw [if_neg hqp] at hq
            exact Or.inl hq
        · exact Or.inr hq
      exact le_trans (h3 ⟨q, hbefore⟩) (dictKeys_sublist_dictInsert _ _ _).length_le
    · intro q hq
      dsimp at hq ⊢
      rcases (mem_dictKeys_dictInsert s.rsi p q _).mp hq with hmem | rfl
      · by_cases hqp : q = p
        · rw [if_pos hqp]
          exact hc
        · rw [if_neg hqp]
          exact h4 q hmem
      · rw [if_pos rfl]
        exact hc
  · rw [updatePairFactor_neg scoreFn fetch s p hc]
    refine ⟨h1, h2, h3, ?_⟩
    intro q hq
    dsimp at hq ⊢
    by_cases hqp : q = p
    · subst hqp
      exact absurd (refreshedCandles_ge fetch s q (h4 q hq)) hc
    · rw [if_neg hqp]
      exact h4 q hq

theorem stateInv_loop (cfg : OKXConfig) (scoreFn : List Candle → ℚ)
    (fetch : String → Option (List Candle)) (pairs : List String) :
    ∀ s : StrategyState, StateInv cfg s →
      StateInv cfg (getFactorLoop scoreFn fetch pairs s) := by
  induction pairs with
  | nil => exact fun s h => h
  | cons p ps ih =>
    intro s h
    exact ih _ (stateInv_update cfg scoreFn fetch s p h)

theorem pythonTail_subset {α : Type} (n : ℕ) (l : List α) (a : α)
    (h : a ∈ pythonTail n l) : a ∈ l := by
  unfold pythonTail at h
  split at h
  · exact h
  · exact (List.drop_subset _ _) h

theorem selectTargets_eq_pos (cfg : OKXConfig) (s : StrategyState) (hne : s.rsi ≠ [])
    (hg : cfg.LONG_TOP_N + cfg.SHORT_BOTTOM_N ≤ (sortedScoreKeys s.rsi).length) :
    selectTargets cfg s =
      ({ s with
          status := setAll (setAll (setAll s.status (sortedScoreKeys s.rsi) 0)
            (pythonTail cfg.LONG_TOP_N (sortedScoreKeys s.rsi)) 1)
            ((sortedScoreKeys s.rsi).take cfg.SHORT_BOTTOM_N) (-1)
          target_value := setAll (setAll (setAll s.target_value (sortedScoreKeys s.rsi) 0)
            (pythonTail cfg.LONG_TOP_N (sortedScoreKeys s.rsi)) cfg.TARGET_VALUE)
            ((sortedScoreKeys s.rsi).take cfg.SHORT_BOTTOM_N) (-cfg.TARGET_VALUE) },
        pythonTail cfg.LONG_TOP_N (sortedScoreKeys s.rsi),
        (sortedScoreKeys s.rsi).take cfg.SHORT_BOTTOM_N) := by
  simp only [selectTargets]
  rw [if_pos hne, if_pos hg]

theorem selectTargets_eq_skip (cfg : OKXConfig) (s : StrategyState)
    (h : s.rsi = [] ∨
      ¬ cfg.LONG_TOP_N + cfg.SHORT_BOTTOM_N ≤ (sortedScoreKeys s.rsi).length) :
    selectTargets cfg s = (s, [], []) := by
  simp only [selectTargets]
  rcases h with h | h
  · rw [if_neg (by simp [h])]
  · by_cases hne : s.rsi ≠ []
    · rw [if_pos hne, if_neg h]
    · rw [if_neg hne]

theorem selected_flat (cfg : OKXConfig) (s : StrategyState) (hInv : StateInv cfg s)
    (p : String) (hp1 : p ∉ (selectTargets cfg s).2.1) (hp2 : p ∉ (selectTargets cfg s).2.2) :
    (selectTargets cfg s).1.status p = 0 ∧ (selectTargets cfg s).1.target_value p = 0 := by
  obtain ⟨h1, h2, h3, _⟩ := hInv
  by_cases hni : s.rsi = []
  · rw [selectTargets_eq_skip cfg s (Or.inl hni)]
    constructor
    · by_contra h
      have hmem := h1 p h
      rw [hni] at hmem
      simp [dictKeys] at hmem
    · by_contra h
      have hmem := h2 p h
      rw [hni] at hmem
      simp [dictKeys] at hmem
  · by_cases hg : cfg.LONG_TOP_N + cfg.SHORT_BOTTOM_N ≤ (sortedScoreKeys s.rsi).length
    · rw [selectTargets_eq_pos cfg s hni hg] at hp1 hp2 ⊢
      dsimp at hp1 hp2 ⊢
      rw [setAll_apply, setAll_apply, setAll_apply, setAll_apply, setAll_apply, setAll_apply,
        if_neg hp2, if_neg hp1, if_neg hp2, if_neg hp1]
      constructor
      · split
        · rfl
        · rename_i hs
          by_contra h
          exact hs ((sortedScoreKeys_perm s.rsi).mem_iff.mpr (h1 p h))
      · split
        · rfl
        · rename_i hs
          by_contra h
          exact hs ((sortedScoreKeys_perm s.rsi).mem_iff.mpr (h2 p h))
    · rw [selectTargets_eq_skip cfg s (Or.inr hg)]
      constructor
      · by_contra h
        exact hg (le_of_le_of_eq (h3 ⟨p, Or.inl h⟩) (sortedScoreKeys_perm s.rsi).length_eq.symm)
      · by_contra h
        exact hg (le_of_le_of_eq (h3 ⟨p, Or.inr h⟩) (sortedScoreKeys_perm s.rsi).length_eq.symm)

theorem stateInv_select (cfg : OKXConfig) (s : StrategyState) (hInv : StateInv cfg s) :
    StateInv cfg (selectTargets cfg s).1 := by
  obtain ⟨h1, h2, h3, h4⟩ := hInv
  by_cases hni : s.rsi = []
  · rw [selectTargets_eq_skip cfg s (Or.inl hni)]
    exact ⟨h1, h2, h3, h4⟩
  · by_cases hg : cfg.LONG_TOP_N + cfg.SHORT_BOTTOM_N ≤ (sortedScoreKeys s.rsi).length
    · rw [selectTargets_eq_pos cfg s hni hg]
      have hlen : cfg.LONG_TOP_N + cfg.SHORT_BOTTOM_N ≤ (dictKeys s.rsi).length :=
        le_of_le_of_eq hg (sortedScoreKeys_perm s.rsi).length_eq
      refine ⟨?_, ?_, fun _ => hlen, h4⟩
      · intro q hq
        dsimp at hq
        rw [setAll_apply, setAll_apply, setAll_apply] at hq
        by_cases hs : q ∈ (sortedScoreKeys s.rsi).take cfg.SHORT_BOTTOM_N
        · exact (sortedScoreKeys_perm s.rsi).mem_iff.mp (List.take_subset _ _ hs)
        · rw [if_neg hs] at hq
          by_cases hl : q ∈ pythonTail cfg.LONG_TOP_N (sortedScoreKeys s.rsi)
          · exact (sortedScoreKeys_perm s.rsi).mem_iff.mp (pythonTail_subset _ _ q hl)
          · rw [if_neg hl] at hq
            by_cases hk : q ∈ sortedScoreKeys s.rsi
            · exact (sortedScoreKeys_perm s.rsi).mem_iff.mp hk
            · rw [if_neg hk] at hq
              exact h1 q hq
      · intro q hq
        dsimp at hq
        rw [setAll_apply, setAll_apply, setAll_apply] at hq
        by_cases hs : q ∈ (sortedScoreKeys s.rsi).take cfg.SHORT_BOTTOM_N
        · exact (sortedScoreKeys_perm s.rsi).mem_iff.mp (List.take_subset _ _ hs)
        · rw [if_neg hs] at hq
          by_cases hl : q ∈ pythonTail cfg.LONG_TOP_N (sortedScoreKeys s.rsi)
          · exact (sortedScoreKeys_perm s.rsi).mem_iff.mp (pythonTail_subset _ _ q hl)
          · rw [if_neg hl] at hq
            by_cases hk : q ∈ sortedScoreKeys s.rsi
            · exact (sortedScoreKeys_perm s.rsi).mem_iff.mp hk
            · rw [if_neg hk] at hq
              exact h2 q hq
    · rw [selectTargets_eq_skip cfg s (Or.inr hg)]
      exact ⟨h1, h2, h3, h4⟩

theorem stateInv_initial (cfg : OKXConfig) : StateInv cfg initialState := by
  refine ⟨?_, ?_, ?_, ?_⟩ <;> simp [initialState, dictKeys]

theorem stateInv_get_factor (cfg : OKXConfig) (scoreFn : List Candle → ℚ)
    (fetch : String → Option (List Candle)) (s : StrategyState) (hInv : StateInv cfg s) :
    StateInv cfg (get_factor scoreFn cfg fetch s).1 :=
  stateInv_select cfg _ (stateInv_loop cfg scoreFn fetch cfg.TRADING_PAIRS s hInv)

theorem reachable_stateInv (cfg : OKXConfig) (scoreFn : List Candle → ℚ)
    (s : StrategyState) (h : Reachable scoreFn cfg s) : StateInv cfg s := by
  induction h with
  | init => exact stateInv_initial cfg
  | step s fetch _ ih => exact stateInv_get_factor cfg scoreFn fetch s ih

/-! ### Claim C2 — no stale target direction survives a cycle -/

/-- C2: in any reachable state, after a full `get_factor` cycle every
instrument that this cycle did not select LONG or SHORT — including
instruments that received no score this cycle — has status 0 (FLAT) and
target value 0; a direction set in a previous cycle never survives. -/
theorem stale_direction_never_survives (scoreFn : List Candle → ℚ) (cfg : OKXConfig)
    (fetch : String → Option (List Candle)) (s : StrategyState)
    (hreach : Reachable scoreFn cfg s) (p : String)
    (hp : p ∉ cycleSelected scoreFn cfg fetch s) :
    (get_factor scoreFn cfg fetch s).1.status p = 0 ∧
    (get_factor scoreFn cfg fetch s).1.target_value p = 0 := by
  have hInv1 : StateInv cfg (getFactorLoop scoreFn fetch cfg.TRADING_PAIRS s) :=
    stateInv_loop cfg scoreFn fetch cfg.TRADING_PAIRS s
      (reachable_stateInv cfg scoreFn s hreach)
  unfold cycleSelected at hp
  rw [List.mem_append] at hp
  push_neg at hp
  exact selected_flat cfg _ hInv1 p hp.1 hp.2

/-- Witness for C2 from the constructor state with a failing fetch: the
unselected pair `Z` ends the cycle flat. -/
theorem stale_direction_never_survives_witness :
    (get_factor scoreZero cfgTwo fetchNone initialState).1.status "Z" = 0 ∧
    (get_factor scoreZero cfgTwo fetchNone initialState).1.target_value "Z" = 0 :=
  stale_direction_never_survives scoreZero cfgTwo fetchNone initialState
    Reachable.init "Z" (by decide)

/-! ### Claim C3 — insufficient universe yields an all-flat target state -/

theorem create_order_no_open (cfg : OKXConfig) (env : ExecEnv) (status : String → ℤ)
    (target_value : String → ℚ) (h : ∀ p, status p = 0) :
    (create_order cfg env status target_value).all (fun a => !(Action.isOpen a)) = true := by
  rw [List.all_eq_true]
  intro a ha
  rw [create_order, List.mem_flatMap] at ha
  obtain ⟨p, _, hap⟩ := ha
  unfold createOrderPair at hap
  split at hap
  · exact absurd hap (List.not_mem_nil a)
  · split at hap
    · exact absurd hap (List.not_mem_nil a)
    · split_ifs at hap with hc1 hc2 hc3 hc4
      · rw [h p] at hc1
        exact absurd hc1.1 (by norm_num)
      · rw [h p] at hc2
        exact absurd hc2.1 (by norm_num)
      · rw [List.mem_singleton] at hap
        subst hap
        rfl
      · rw [List.mem_singleton] at hap
        subst hap
        rfl
      · exact absurd hap (List.not_mem_nil a)

/-- C3: in any reachable state, when the score dict seen by this cycle's
selection holds fewer than `long_n + short_n` entries, the cycle ends with an
all-flat target state (every instrument status 0, target value 0) and the
subsequent `create_order` pass opens no position; the condition is non-fatal
(the selection step merely returns, it has no failure result). -/
theorem insufficient_universe_all_flat (scoreFn : List Candle → ℚ) (cfg : OKXConfig)
    (fetch : String → Option (List Candle)) (s : StrategyState)
    (hreach : Reachable scoreFn cfg s)
    (hsmall : (dictKeys (getFactorLoop scoreFn fetch cfg.TRADING_PAIRS s).rsi).length <
      cfg.LONG_TOP_N + cfg.SHORT_BOTTOM_N) :
    (∀ p, (get_factor scoreFn cfg fetch s).1.status p = 0 ∧
      (get_factor scoreFn cfg fetch s).1.target_value p = 0) ∧
    (∀ env : ExecEnv,
      (create_order cfg env (get_factor scoreFn cfg fetch s).1.status
        (get_factor scoreFn cfg fetch s).1.target_value).all
        (fun a => !(Action.isOpen a)) = true) := by
  have hInv1 : StateInv cfg (getFactorLoop scoreFn fetch cfg.TRADING_PAIRS s) :=
    stateInv_loop cfg scoreFn fetch cfg.TRADING_PAIRS s
      (reachable_stateInv cfg scoreFn s hreach)
  obtain ⟨h1, h2, h3, _⟩ := hInv1
  have hg : ¬ cfg.LONG_TOP_N + cfg.SHORT_BOTTOM_N ≤
      (sortedScoreKeys (getFactorLoop scoreFn fetch cfg.TRADING_PAIRS s).rsi).length := by
    rw [(sortedScoreKeys_perm _).length_eq]
    omega
  have heq : get_factor scoreFn cfg fetch s =
      (getFactorLoop scoreFn fetch cfg.TRADING_PAIRS s, [], []) :=
    selectTargets_eq_skip cfg _ (Or.inr hg)
  have hflat : ∀ p, (get_factor scoreFn cfg fetch s).1.status p = 0 ∧
      (get_factor scoreFn cfg fetch s).1.target_value p = 0 := by
    intro p
    rw [heq]
    constructor
    · by_contra h
      exact hg (le_of_le_of_eq (h3 ⟨p, Or.inl h⟩) (sortedScoreKeys_perm _).length_eq.symm)
    · by_contra h
      exact hg (le_of_le_of_eq (h3 ⟨p, Or.inr h⟩) (sortedScoreKeys_perm _).length_eq.symm)
  exact ⟨hflat, fun env => create_order_no_open cfg env _ _ (fun p => (hflat p).1)⟩

/-- Witness for C3 from the constructor state with a failing fetch: the score
dict stays empty (0 < 4 required entries), pair `Z` ends flat, and the
concrete order pass opens nothing. -/
theorem insufficient_universe_all_flat_witness :
    ((get_factor scoreZero cfgTwo fetchNone initialState).1.status "Z" = 0 ∧
      (get_factor scoreZero cfgTwo fetchNone initialState).1.target_value "Z" = 0) ∧
    (create_order cfgTwo envShortA (get_factor scoreZero cfgTwo fetchNone initialState).1.status
      (get_factor scoreZero cfgTwo fetchNone initialState).1.target_value).all
      (fun a => !(Action.isOpen a)) = true :=
  ⟨(insufficient_universe_all_flat scoreZero cfgTwo fetchNone initialState
      Reachable.init (by decide)).1 "Z",
    (insufficient_universe_all_flat scoreZero cfgTwo fetchNone initialState
      Reachable.init (by decide)).2 envShortA⟩

/-! ### Claim C8 — short candle series produce no score -/

/-- C8: in any reachable state, after a `get_factor` cycle an instrument
whose cached candle series holds fewer than 168 bars has no entry in the
score dict — it is absent from the ranking keys entirely, rather than being
given a zero score. -/
theorem short_series_excluded (scoreFn : List Candle → ℚ) (cfg : OKXConfig)
    (fetch : String → Option (List Candle)) (s : StrategyState)
    (hreach : Reachable scoreFn cfg s) (p : String)
    (hlen : ((get_factor scoreFn cfg fetch s).1.candles p).length < 168) :
    p ∉ dictKeys (get_factor scoreFn cfg fetch s).1.rsi ∧
    p ∉ sortedScoreKeys (get_factor scoreFn cfg fetch s).1.rsi := by
  have hInv : StateInv cfg (get_factor scoreFn cfg fetch s).1 :=
    reachable_stateInv cfg scoreFn _ (Reachable.step s fetch hreach)
  obtain ⟨_, _, _, h4⟩ := hInv
  have hmem : p ∉ dictKeys (get_factor scoreFn cfg fetch s).1.rsi := by
    intro hm
    exact absurd (h4 p hm) (by omega)
  exact ⟨hmem, fun hs => hmem ((sortedScoreKeys_perm _).mem_iff.mp hs)⟩

/-- Witness for C8: pair `Z` has an empty cached series after the cycle and
is absent from the score dict and the ranking. -/
theorem short_series_excluded_witness :
    "Z" ∉ dictKeys (get_factor scoreZero cfgTwo fetchNone initialState).1.rsi ∧
    "Z" ∉ sortedScoreKeys (get_factor scoreZero cfgTwo fetchNone initialState).1.rsi :=
  short_series_excluded scoreZero cfgTwo fetchNone initialState
    Reachable.init "Z" (by decide)

/-! ### Claims C4 and C10 — orphan closure coverage and the priced-snapshot gap -/

theorem foldl_positionStep_mono (ticker : String → Option ℚ) (l : List RawPosition) :
    ∀ (acc : List (String × PosInfo)) (sym : String), sym ∈ dictKeys acc →
      sym ∈ dictKeys (l.foldl (positionStep ticker) acc) := by
  induction l with
  | nil => exact fun acc sym h => h
  | cons r rs ih =>
    intro acc sym h
    rw [List.foldl_cons]
    apply ih
    unfold positionStep
    split
    · cases ht : ticker r.symbol with
      | some pr => exact (mem_dictKeys_dictInsert _ _ _ _).mpr (Or.inl h)
      | none => exact h
    · exact h

theorem mem_keys_foldl_positionStep (ticker : String → Option ℚ) (l : List RawPosition)
    (q : RawPosition) (hpos : (0:ℚ) < q.pos) (pr : ℚ) (ht : ticker q.symbol = some pr) :
    ∀ acc : List (String × PosInfo), q ∈ l →
      q.symbol ∈ dictKeys (l.foldl (positionStep ticker) acc) := by
  induction l with
  | nil => exact fun acc h => absurd h (List.not_mem_nil q)
  | cons r rs ih =>
    intro acc hq
    rw [List.foldl_cons]
    rcases List.mem_cons.mp hq with rfl | hq'
    · apply foldl_positionStep_mono
      unfold positionStep
      rw [if_pos hpos, ht]
      exact (mem_dictKeys_dictInsert _ _ _ _).mpr (Or.inr rfl)
    · exact ih _ hq'

theorem foldl_positionStep_origin (ticker : String → Option ℚ) (l : List RawPosition) :
    ∀ (acc : List (String × PosInfo)) (e : String × PosInfo),
      e ∈ l.foldl (positionStep ticker) acc →
      e ∈ acc ∨ ∃ r ∈ l, e.1 = r.symbol ∧ e.2.side = r.posSide ∧ e.2.contracts = r.pos := by
  induction l with
  | nil => exact fun acc e h => Or.inl h
  | cons r rs ih =>
    intro acc e h
    rw [List.foldl_cons] at h
    rcases ih _ e h with h' | ⟨r', hr', he⟩
    · unfold positionStep at h'
      split at h'
      · cases ht : ticker r.symbol with
        | some pr =>
          rw [ht] at h'
          rcases mem_of_mem_dictInsert h' with h'' | rfl
          · exact Or.inl h''
          · exact Or.inr ⟨r, List.mem_cons_self r rs, rfl, rfl, rfl⟩
        | none =>
          rw [ht] at h'
          exact Or.inl h'
      · exact Or.inl h'
    · exact Or.inr ⟨r', List.mem_cons_of_mem r hr', he⟩

theorem not_mem_keys_foldl_positionStep (ticker : String → Option ℚ) (sym : String)
    (ht : ticker sym = none) (l : List RawPosition) :
    ∀ acc : List (String × PosInfo), sym ∉ dictKeys acc →
      sym ∉ dictKeys (l.foldl (positionStep ticker) acc) := by
  induction l with
  | nil => exact fun acc h => h
  | cons r rs ih =>
    intro acc h
    rw [List.foldl_cons]
    apply ih
    unfold positionStep
    split
    · cases htr : ticker r.symbol with
      | some pr =>
        intro hmem
        rcases (mem_dictKeys_dictInsert _ _ _ _).mp hmem with h' | rfl
        · exact h h'
        · simp [htr] at ht
      | none => exact h
    · exact h

theorem mem_closeOrphanAction_spec (selected : List String) (e : String × PosInfo)
    (a : Action) (h : a ∈ closeOrphanAction selected e) :
    Action.symbol a = e.1 ∧ Action.isClose a = true := by
  unfold closeOrphanAction at h
  split_ifs at h
  · exact absurd h (List.not_mem_nil a)
  · rw [List.mem_singleton] at h
    subst h
    exact ⟨rfl, rfl⟩
  · rw [List.mem_singleton] at h
    subst h
    exact ⟨rfl, rfl⟩
  · exact absurd h (List.not_mem_nil a)

/-- C4: every fetched position with positive contracts whose symbol is not in
the selected set and whose ticker fetch succeeds receives a CLOSE order from
`close_orphaned_positions` — the scan covers all exchange positions, whether
or not the symbol belongs to the configured trading pairs. -/
theorem orphan_close_emitted (ticker : String → Option ℚ) (positions : List RawPosition)
    (pairs : List String) (status : String → ℤ) (q : RawPosition) (pr : ℚ)
    (hq : q ∈ positions) (hpos : (0:ℚ) < q.pos) (ht : ticker q.symbol = some pr)
    (hsides : ∀ r ∈ positions, r.posSide = "long" ∨ r.posSide = "short")
    (hsel : q.symbol ∉ selectedPairs pairs status) :
    (close_orphaned_positions ticker positions pairs status).any
      (fun a => Action.symbol a == q.symbol && Action.isClose a) = true := by
  have hkey : q.symbol ∈ dictKeys (get_all_positions ticker positions) :=
    mem_keys_foldl_positionStep ticker positions q hpos pr ht [] hq
  rw [dictKeys, List.mem_map] at hkey
  obtain ⟨e, he, hesym⟩ := hkey
  rcases foldl_positionStep_origin ticker positions [] e he with h0 | ⟨r, hr, he1, he2, _⟩
  · exact absurd h0 (List.not_mem_nil e)
  have hsel' : e.1 ∉ selectedPairs pairs status := by
    rw [hesym]
    exact hsel
  rw [List.any_eq_true]
  rcases hsides r hr with hside | hside
  · refine ⟨Action.closeLong e.1 e.2.contracts, ?_, ?_⟩
    · rw [close_orphaned_positions, List.mem_flatMap]
      refine ⟨e, he, ?_⟩
      unfold closeOrphanAction
      rw [if_neg hsel', if_pos (by rw [he2, hside])]
      exact List.mem_singleton.mpr rfl
    · simp [Action.symbol, Action.isClose, hesym]
  · refine ⟨Action.closeShort e.1 e.2.contracts, ?_, ?_⟩
    · rw [close_orphaned_positions, List.mem_flatMap]
      refine ⟨e, he, ?_⟩
      unfold closeOrphanAction
      rw [if_neg hsel']
      by_cases hlong : e.2.side = "long"
      · rw [he2, hside] at hlong
        exact absurd hlong (by decide)
      · rw [if_neg hlong, if_pos (by rw [he2, hside])]
        exact List.mem_singleton.mpr rfl
    · simp [Action.symbol, Action.isClose, hesym]

/-- Witness for C4: a live short of 2 contracts of `B`, an instrument outside
the configured universe `["A"]`, with nothing selected, gets a CLOSE order. -/
theorem orphan_close_emitted_witness :
    (close_orphaned_positions tickerFive positionsOrphanB cfgOne.TRADING_PAIRS statusZero).any
      (fun a => Action.symbol a == "B" && Action.isClose a) = true :=
  orphan_close_emitted tickerFive positionsOrphanB cfgOne.TRADING_PAIRS statusZero
    ⟨"B-USDT-SWAP", "short", 2, "B"⟩ 5 (List.mem_singleton.mpr rfl) (by norm_num) rfl
    (by
      intro r hr
      rw [positionsOrphanB, List.mem_singleton] at hr
      subst hr
      exact Or.inr rfl)
    (by decide)

/-- C10: a live position whose ticker fetch fails is dropped from the
snapshot built by `get_all_positions`, so `close_orphaned_positions` places
no order at all for its symbol that cycle — the position is silently exempt
from orphan closure. -/
theorem priceless_position_exempt (ticker : String → Option ℚ) (positions : List RawPosition)
    (pairs : List String) (status : String → ℤ) (sym : String) (ht : ticker sym = none) :
    sym ∉ dictKeys (get_all_positions ticker positions) ∧
    (close_orphaned_positions ticker positions pairs status).all
      (fun a => !(Action.symbol a == sym)) = true := by
  have hk : sym ∉ dictKeys (get_all_positions ticker positions) :=
    not_mem_keys_foldl_positionStep ticker sym ht positions []
      (by simp [dictKeys])
  refine ⟨hk, ?_⟩
  rw [List.all_eq_true]
  intro a ha
  rw [close_orphaned_positions, List.mem_flatMap] at ha
  obtain ⟨e, he, hae⟩ := ha
  have hsym := (mem_closeOrphanAction_spec _ _ _ hae).1
  have he1 : e.1 ∈ dictKeys (get_all_positions ticker positions) := by
    rw [dictKeys, List.mem_map]
    exact ⟨e, he, rfl⟩
  have hne : Action.symbol a ≠ sym := by
    rw [hsym]
    intro hcontra
    rw [hcontra] at he1
    exact hk he1
  simp [hne]

/-- Witness for C10: with the ticker failing for `B`, the held 2-contract
short of `B` is absent from the snapshot and no order mentions `B`. -/
theorem priceless_position_exempt_witness :
    "B" ∉ dictKeys (get_all_positions tickerNone positionsOrphanB) ∧
    (close_orphaned_positions tickerNone positionsOrphanB cfgOne.TRADING_PAIRS statusZero).all
      (fun a => !(Action.symbol a == "B")) = true :=
  priceless_position_exempt tickerNone positionsOrphanB cfgOne.TRADING_PAIRS statusZero "B" rfl

/-! ### Claim C1 — target direction opposite to the live position -/

theorem mem_createOrderPair_symbol (env : ExecEnv) (status : String → ℤ)
    (target_value : String → ℚ) (p : String) (a : Action)
    (h : a ∈ createOrderPair env status target_value p) : Action.symbol a = p := by
  unfold createOrderPair at h
  split at h
  · exact absurd h (List.not_mem_nil a)
  · split at h
    · exact absurd h (List.not_mem_nil a)
    · split_ifs at h <;>
        first
          | exact absurd h (List.not_mem_nil a)
          | (rw [List.mem_singleton] at h; subst h; rfl)

theorem createOrderPair_opposite_empty (env : ExecEnv) (status : String → ℤ)
    (target_value : String → ℚ) (p : String)
    (hsel : status p = 1 ∨ status p = -1) (hval : env.asset_value p ≠ 0) :
    createOrderPair env status target_value p = [] := by
  unfold createOrderPair
  split
  · rfl
  · split
    · rfl
    · rw [if_neg, if_neg, if_neg, if_neg]
      · rintro ⟨h1, _⟩
        rcases hsel with h | h <;> omega
      · rintro ⟨h1, _⟩
        rcases hsel with h | h <;> omega
      · rintro ⟨_, h2⟩
        exact hval h2
      · rintro ⟨_, h2⟩
        exact hval h2

/-- C1 counterexample: the claim "target LONG over a live short yields CLOSE
short then OPEN long in one cycle" is false at the explicit state where pair
`A` is targeted LONG (status 1, target 200) while the exchange holds a live
short of 1 contract (asset value −100): the full reconciliation cycle
(`close_orphaned_positions` followed by `create_order`) emits no order at
all — `A` is in the selected set, so the orphan pass keeps the short, and the
open branch requires a zero live value. -/
theorem long_over_short_counterexample :
    cycleExecActions cfgOne envShortA tickerConst positionsShortA statusLongA targetConst
      = [] := by
  have hclose : close_orphaned_positions tickerConst positionsShortA cfgOne.TRADING_PAIRS
      statusLongA = [] := by
    norm_num [close_orphaned_positions, get_all_positions, positionStep, positionsShortA,
      tickerConst, dictInsert, dictKeys, closeOrphanAction, selectedPairs, cfgOne, statusLongA]
  have hpair : createOrderPair envShortA statusLongA targetConst "A" = [] :=
    createOrderPair_opposite_empty envShortA statusLongA targetConst "A"
      (Or.inl (by norm_num [statusLongA])) (by norm_num [envShortA])
  rw [cycleExecActions, hclose]
  simp [create_order, cfgOne, hpair]

/-- C1 amended: when the target direction for an instrument is LONG but the
live position is short (or SHORT over a live long), one reconciliation cycle
emits NO action for that instrument — no CLOSE (the instrument is selected,
so orphan closure keeps the opposite-side position) and no OPEN (the open
branches require a zero live value).  The claimed CLOSE-then-OPEN pair is
never produced within a single cycle; the position can only be flipped across
cycles, after the instrument first drops out of the selection. -/
theorem opposite_live_position_no_action (cfg : OKXConfig) (env : ExecEnv)
    (ticker : String → Option ℚ) (positions : List RawPosition)
    (status : String → ℤ) (target_value : String → ℚ) (p : String)
    (hp : p ∈ cfg.TRADING_PAIRS)
    (hsel : status p = 1 ∨ status p = -1) (hval : env.asset_value p ≠ 0) :
    (cycleExecActions cfg env ticker positions status target_value).filter
      (fun a => Action.symbol a == p) = [] := by
  have hmem : p ∈ selectedPairs cfg.TRADING_PAIRS status := by
    rw [selectedPairs, List.mem_filter]
    refine ⟨hp, ?_⟩
    rcases hsel with h | h <;> simp [h]
  rw [cycleExecActions, List.filter_append, List.append_eq_nil]
  constructor
  · rw [List.filter_eq_nil_iff]
    intro a ha
    rw [close_orphaned_positions, List.mem_flatMap] at ha
    obtain ⟨e, he, hae⟩ := ha
    by_cases hep : e.1 = p
    · unfold closeOrphanAction at hae
      rw [if_pos (by rw [hep]; exact hmem)] at hae
      exact absurd hae (List.not_mem_nil a)
    · have hspec := (mem_closeOrphanAction_spec _ _ _ hae).1
      simp [hspec, hep]
  · rw [List.filter_eq_nil_iff]
    intro a ha
    rw [create_order, List.mem_flatMap] at ha
    obtain ⟨q, hq, haq⟩ := ha
    by_cases hqp : q = p
    · subst hqp
      rw [createOrderPair_opposite_empty env status target_value q hsel hval] at haq
      exact absurd haq (List.not_mem_nil a)
    · have hsym := mem_createOrderPair_symbol env status target_value q a haq
      simp [hsym, hqp]

/-- Witness for the amended C1 at the counterexample state: no action of the
cycle mentions the LONG-targeted, live-short pair `A`. -/
theorem opposite_live_position_no_action_witness :
    (cycleExecActions cfgOne envShortA tickerConst positionsShortA statusLongA
      targetConst).filter (fun a => Action.symbol a == "A") = [] :=
  opposite_live_position_no_action cfgOne envShortA tickerConst positionsShortA statusLongA
    targetConst "A" (by decide) (Or.inl (by decide)) (by norm_num [envShortA])

end LongShort
